import Mathlib

/-
Verification of the plugin lifecycle orchestrator in
src/crates-tauri/yaak-app/src/plugins_ext.rs.

Strings are modelled as lists of characters. External collaborators
(the Store, the plugin runtime, the notifier) are modelled from the
interface contract the orchestrator consumes; the orchestrator logic
itself is translated directly from the source.
-/

set_option autoImplicit false

namespace Yapi

/-- Strings are modelled as lists of characters. -/
abbrev Str := List Char

/-- Modelled from the spec: the update-source tag passed alongside a store
write (the source passes UpdateSource::Background during reconciliation);
Background marks a background update, UserAction a user-initiated one. -/
inductive UpdateSource where
  | Background
  | UserAction
  deriving DecidableEq, Repr

/-- Modelled from the spec: the remaining metadata fields of a PluginRecord
beyond directory, enabled and url (the spec lists these as "other metadata");
bundled as one opaque field so that a default value exists. -/
structure PluginMeta where
  metaId : Str
  deriving DecidableEq, Repr

/-- The default value for the other metadata fields, mirroring the
Default::default() fill in the source record literal. -/
def defaultMeta : PluginMeta := ⟨[]⟩

/-- A persisted plugin record: directory is the unique key. -/
structure Plugin where
  directory : Str
  enabled : Bool
  url : Option Str
  meta : PluginMeta
  deriving DecidableEq, Repr

/-- The record constructed in the reconciliation loop of the source:
directory set, enabled = true, url = None, all other fields defaulted. -/
def bundledRecord (dir : Str) : Plugin :=
  { directory := dir, enabled := true, url := none, meta := defaultMeta }

/-- The persistent store, modelled as the list of its plugin records. -/
abbrev Store := List Plugin

/-- Modelled from the spec: get_plugin_by_directory, a keyed lookup of a
plugin record by its directory key. -/
def get_plugin_by_directory : Store → Str → Option Plugin
  | [], _ => none
  | p :: s, dir => if p.directory = dir then some p else get_plugin_by_directory s dir

/-- Modelled from the spec: upsert_plugin, which replaces the record stored
under the same directory key or appends the record when the key is absent. -/
def upsert_plugin : Store → Plugin → Store
  | [], p => [p]
  | q :: s, p => if q.directory = p.directory then p :: s else q :: upsert_plugin s p

/-- The reconciliation loop of the source, returning the resulting store:
for each bundled directory in order, insert a bundled record when no record
with that directory key exists. -/
def reconcile : List Str → Store → Store
  | [], s => s
  | d :: ds, s =>
    match get_plugin_by_directory s d with
    | some _ => reconcile ds s
    | none => reconcile ds (upsert_plugin s (bundledRecord d))

/-- The sequence of upsert_plugin calls the reconciliation loop performs,
each recorded as the written record paired with its update-source tag. -/
def reconcileWrites : List Str → Store → List (Plugin × UpdateSource)
  | [], _ => []
  | d :: ds, s =>
    match get_plugin_by_directory s d with
    | some _ => reconcileWrites ds s
    | none =>
      (bundledRecord d, UpdateSource.Background) ::
        reconcileWrites ds (upsert_plugin s (bundledRecord d))

/-- The split of a character list on the slash character, mirroring the
behavior of splitting a string on a single-character pattern in the source
language: the result always has at least one segment, an empty input yields
one empty segment, and a trailing slash yields a trailing empty segment. -/
def splitSlash : List Char → List Str
  | [] => [[]]
  | c :: cs =>
    if c = '/' then [] :: splitSlash cs
    else
      match splitSlash cs with
      | [] => [[c]]
      | seg :: rest => (c :: seg) :: rest

/-- The display-name derivation from the source: the last segment of the
directory split on slash, falling back to the whole directory when the
split yields no segment at all. -/
def pluginDisplayName (dir : Str) : Str :=
  match (splitSlash dir).getLast? with
  | some n => n
  | none => dir

/-- Substring containment: sub occurs contiguously inside whole. -/
def containsSeg (sub whole : Str) : Prop :=
  ∃ a b, whole = a ++ sub ++ b

/-- The quote character used in the toast message text. -/
def quoteChar : Char := Char.ofNat 39

/-- Modelled from the spec: the severity marker carried by a toast; the
source uses the Danger variant for plugin startup failures. -/
inductive Color where
  | Danger
  | Success
  deriving DecidableEq, Repr

/-- Modelled from the spec: the icon carried by a toast; the source uses
the AlertTriangle warning icon for plugin startup failures. -/
inductive Icon where
  | AlertTriangle
  | Info
  deriving DecidableEq, Repr

/-- Modelled from the spec: the toast request payload emitted for a failed
plugin, with message text, optional severity color, optional icon and an
optional display timeout in milliseconds. -/
structure ShowToastRequest where
  message : Str
  color : Option Color
  icon : Option Icon
  timeout : Option Nat
  deriving DecidableEq, Repr

/-- The toast built in the source for one initialization failure, a pair of
the failing directory and the error message. -/
def failureToast (failure : Str × Str) : ShowToastRequest :=
  { message :=
      "Failed to start plugin ".data ++ [quoteChar] ++ pluginDisplayName failure.1 ++
        [quoteChar] ++ ": ".data ++ failure.2
  , color := some Color.Danger
  , icon := some Icon.AlertTriangle
  , timeout := some 10000 }

/-- The toast-emission loop of the source: one toast per failure entry,
in order. -/
def failureToasts (errors : List (Str × Str)) : List ShowToastRequest :=
  errors.map failureToast

/-- The externally visible actions the exit handler can perform: suppress
the default immediate exit, drain the runtime via terminate, and force the
process to exit with a status code. -/
inductive ExitAction where
  | preventExit
  | terminate
  | exitApp (code : Nat)
  deriving DecidableEq, Repr

/-- One delivery of the exit-request signal, translated from the on_event
handler: atomically swap the EXITING flag to true; if it was already set,
do nothing; otherwise suppress the default exit, await terminate, then
force the process exit with status 0. Returns the new flag value and the
actions performed, in order. -/
def handleExitRequested (exiting : Bool) : Bool × List ExitAction :=
  if exiting then (true, [])
  else (true, [ExitAction.preventExit, ExitAction.terminate, ExitAction.exitApp 0])

/-- Delivery of n successive exit-request signals starting from a given
flag value, concatenating the actions each delivery performs. -/
def runExitSignals : Nat → Bool → Bool × List ExitAction
  | 0, exiting => (exiting, [])
  | n + 1, exiting =>
    let first := handleExitRequested exiting
    let rest := runExitSignals n first.1
    (rest.1, first.2 ++ rest.2)

/-- The steps of the bootstrap sequence, in the order the spec lists them. -/
inductive Step where
  | resolution
  | construction
  | enumeration
  | reconciliation
  | load
  | initialization
  | publish
  deriving DecidableEq, Repr

/-- The full bootstrap step order. -/
def fullOrder : List Step :=
  [Step.resolution, Step.construction, Step.enumeration, Step.reconciliation,
   Step.load, Step.initialization, Step.publish]

/-- The platform-selected runtime binary name from the source: the suffixed
name on Windows, the base name elsewhere. -/
def nodeBinName (isWindows : Bool) : Str :=
  if isWindows then "yaaknode.exe".data else "yaaknode".data

/-- The logical resource path at which the source resolves the runtime
binary: the platform-selected name under the vendored node directory. -/
def nodeBinLogicalPath (isWindows : Bool) : Str :=
  "vendored/node/".data ++ nodeBinName isWindows

/-- The runtime handle, modelled as the record of the four resolved paths
and the development-mode flag it is constructed from. -/
structure PluginManager where
  vendoredPluginDir : Str
  installedPluginDir : Str
  nodeBinPath : Str
  pluginRuntimeMain : Str
  devMode : Bool
  deriving DecidableEq, Repr

/-- The environment of external collaborators the bootstrap consumes:
resource resolution, the app-data directory, the platform and dev-mode
flags, the outcome of bundled-directory enumeration, the store contents,
the per-directory outcome of store writes, the outcome of the store read,
and the failures reported by plugin initialization. -/
structure Env where
  resolve : Str → Option Str
  appDataDir : Option Str
  isWindows : Bool
  devMode : Bool
  bundledDirs : Except Str (List Str)
  store : Store
  upsertOk : Str → Bool
  listOk : Bool
  initErrors : Store → List (Str × Str)

/-- The reconciliation loop with fallible store writes: a write failure on
some directory aborts the loop with the panic message from the source. -/
def reconcileE (ok : Str → Bool) : List Str → Store → Except Str Store
  | [], s => Except.ok s
  | d :: ds, s =>
    match get_plugin_by_directory s d with
    | some _ => reconcileE ok ds s
    | none =>
      if ok d then reconcileE ok ds (upsert_plugin s (bundledRecord d))
      else Except.error "Failed to upsert bundled plugin".data

/-- The data published at the end of a successful bootstrap: the managed
runtime handle, the store contents loaded for initialization, and the
toasts emitted for initialization failures. -/
structure BootOk where
  manager : PluginManager
  plugins : Store
  toasts : List ShowToastRequest
  deriving DecidableEq, Repr

/-- The bootstrap sequence translated from the setup closure of the source:
resolve the vendored plugin directory, the app-data installed-plugin
directory, the platform-selected runtime binary and the runtime entry
module (each failure fatal); construct the manager from the resolved
inputs; enumerate the bundled directories (failure fatal); reconcile them
into the store (write failure fatal); read the full plugin list (failure
fatal); initialize all plugins and collect the failures; build one toast
per failure; publish the manager. Returns the completed steps in order and
either the published data or the fatal error. -/
def bootstrap (env : Env) : List Step × Except Str BootOk :=
  match env.resolve "vendored/plugins".data with
  | none => ([], Except.error "failed to resolve plugin directory resource".data)
  | some vendoredPluginDir =>
    match env.appDataDir with
    | none => ([], Except.error "failed to get app data dir".data)
    | some appData =>
      match env.resolve (nodeBinLogicalPath env.isWindows) with
      | none => ([], Except.error "failed to resolve yaaknode binary".data)
      | some nodeBinPath =>
        match env.resolve "vendored/plugin-runtime".data with
        | none => ([], Except.error "failed to resolve plugin runtime".data)
        | some runtimeDir =>
          let manager : PluginManager :=
            { vendoredPluginDir := vendoredPluginDir
            , installedPluginDir := appData ++ "/installed-plugins".data
            , nodeBinPath := nodeBinPath
            , pluginRuntimeMain := runtimeDir ++ "/index.cjs".data
            , devMode := env.devMode }
          match env.bundledDirs with
          | Except.error _ =>
            ([Step.resolution, Step.construction],
             Except.error "Failed to list bundled plugins".data)
          | Except.ok bundledDirs =>
            match reconcileE env.upsertOk bundledDirs env.store with
            | Except.error e =>
              ([Step.resolution, Step.construction, Step.enumeration], Except.error e)
            | Except.ok store' =>
              if env.listOk then
                ([Step.resolution, Step.construction, Step.enumeration,
                  Step.reconciliation, Step.load, Step.initialization, Step.publish],
                 Except.ok
                   { manager := manager
                   , plugins := store'
                   , toasts := failureToasts (env.initErrors store') })
              else
                ([Step.resolution, Step.construction, Step.enumeration,
                  Step.reconciliation],
                 Except.error "Failed to list plugins from database".data)

/-- A bootstrap run that aborts startup: the outcome is a fatal error and
the publish step never happens. -/
def aborted (env : Env) : Prop :=
  (∃ e, (bootstrap env).2 = Except.error e) ∧ Step.publish ∉ (bootstrap env).1

/-- An example store holding one bundled record, used for witnesses. -/
def storeEx : Store := [bundledRecord "core/a".data]

/-- An example environment where every collaborator succeeds, used for
witnesses. -/
def envOkEx : Env :=
  { resolve := fun p => some ("R/".data ++ p)
  , appDataDir := some "data".data
  , isWindows := false
  , devMode := false
  , bundledDirs := Except.ok ["core/a".data, "core/b".data]
  , store := []
  , upsertOk := fun _ => true
  , listOk := true
  , initErrors := fun _ => [("core/b".data, "missing dependency".data)] }

/-- The published result of bootstrapping envOkEx. -/
def bootOkEx : BootOk :=
  { manager :=
    { vendoredPluginDir := "R/vendored/plugins".data
    , installedPluginDir := "data/installed-plugins".data
    , nodeBinPath := "R/vendored/node/yaaknode".data
    , pluginRuntimeMain := "R/vendored/plugin-runtime/index.cjs".data
    , devMode := false }
  , plugins := [bundledRecord "core/a".data, bundledRecord "core/b".data]
  , toasts := failureToasts [("core/b".data, "missing dependency".data)] }

/-- An example environment where every collaborator fails, used for
witnesses. -/
def envFailEx : Env :=
  { resolve := fun _ => none
  , appDataDir := none
  , isWindows := false
  , devMode := false
  , bundledDirs := Except.error "bundle unreadable".data
  , store := []
  , upsertOk := fun _ => false
  , listOk := false
  , initErrors := fun _ => [] }

theorem get_upsert_self (s : Store) (p : Plugin) :
    get_plugin_by_directory (upsert_plugin s p) p.directory = some p := by
  induction s with
  | nil => simp [upsert_plugin, get_plugin_by_directory]
  | cons q s ih =>
    by_cases h : q.directory = p.directory
    · simp [upsert_plugin, h, get_plugin_by_directory]
    · simp [upsert_plugin, h, get_plugin_by_directory, ih]

theorem get_upsert_of_ne (s : Store) (p : Plugin) (d : Str) (h : d ≠ p.directory) :
    get_plugin_by_directory (upsert_plugin s p) d = get_plugin_by_directory s d := by
  have hpd : ¬ p.directory = d := fun hh => h hh.symm
  induction s with
  | nil => simp [upsert_plugin, get_plugin_by_directory, hpd]
  | cons q s ih =>
    by_cases hq : q.directory = p.directory
    · have hqd : ¬ q.directory = d := by rw [hq]; exact hpd
      simp [upsert_plugin, hq, get_plugin_by_directory, hqd, hpd]
    · simp only [upsert_plugin, if_neg hq, get_plugin_by_directory]
      by_cases hqd : q.directory = d
      · simp [hqd]
      · simp [hqd, ih]

theorem get_reconcile_of_get (ds : List Str) (s : Store) (d : Str) (p : Plugin)
    (h : get_plugin_by_directory s d = some p) :
    get_plugin_by_directory (reconcile ds s) d = some p := by
  induction ds generalizing s with
  | nil => exact h
  | cons d' ds ih =>
    cases hd : get_plugin_by_directory s d' with
    | some q => simpa [reconcile, hd] using ih s h
    | none =>
      have hne : d ≠ d' := by
        intro hc
        rw [hc, hd] at h
        exact Option.noConfusion h
      have hrec : get_plugin_by_directory (upsert_plugin s (bundledRecord d')) d = some p := by
        rw [get_upsert_of_ne s (bundledRecord d') d (by simpa [bundledRecord] using hne)]
        exact h
      simpa [reconcile, hd] using ih _ hrec

theorem get_reconcile_isSome (ds : List Str) (s : Store) (d : Str) (h : d ∈ ds) :
    (get_plugin_by_directory (reconcile ds s) d).isSome := by
  induction ds generalizing s with
  | nil => cases h
  | cons d' ds ih =>
    cases hd : get_plugin_by_directory s d' with
    | some q =>
      rcases List.mem_cons.mp h with rfl | hmem
      · have := get_reconcile_of_get ds s d q hd
        simp [reconcile, hd, this]
      · simpa [reconcile, hd] using ih s hmem
    | none =>
      rcases List.mem_cons.mp h with rfl | hmem
      · have hself : get_plugin_by_directory (upsert_plugin s (bundledRecord d)) d =
            some (bundledRecord d) := by
          simpa [bundledRecord] using get_upsert_self s (bundledRecord d)
        have := get_reconcile_of_get ds _ d (bundledRecord d) hself
        simp [reconcile, hd, this]
      · simpa [reconcile, hd] using ih _ hmem

theorem reconcile_noop (ds : List Str) (s : Store)
    (h : ∀ d ∈ ds, (get_plugin_by_directory s d).isSome) :
    reconcile ds s = s := by
  induction ds with
  | nil => rfl
  | cons d' ds ih =>
    have hd := h d' (List.mem_cons_self d' ds)
    cases hd' : get_plugin_by_directory s d' with
    | none => rw [hd'] at hd; simp at hd
    | some q =>
      simp only [reconcile, hd']
      exact ih (fun d hm => h d (List.mem_cons_of_mem d' hm))

theorem reconcileWrites_nil_of_present (ds : List Str) (s : Store)
    (h : ∀ d ∈ ds, (get_plugin_by_directory s d).isSome) :
    reconcileWrites ds s = [] := by
  induction ds with
  | nil => rfl
  | cons d' ds ih =>
    have hd := h d' (List.mem_cons_self d' ds)
    cases hd' : get_plugin_by_directory s d' with
    | none => rw [hd'] at hd; simp at hd
    | some q =>
      simp only [reconcileWrites, hd']
      exact ih (fun d hm => h d (List.mem_cons_of_mem d' hm))

theorem mem_reconcileWrites (ds : List Str) (s : Store) (w : Plugin × UpdateSource)
    (hw : w ∈ reconcileWrites ds s) :
    ∃ d, w = (bundledRecord d, UpdateSource.Background) := by
  induction ds generalizing s with
  | nil => cases hw
  | cons d' ds ih =>
    cases hd : get_plugin_by_directory s d' with
    | some q =>
      simp only [reconcileWrites, hd] at hw
      exact ih _ hw
    | none =>
      simp only [reconcileWrites, hd] at hw
      rcases List.mem_cons.mp hw with rfl | hmem
      · exact ⟨d', rfl⟩
      · exact ih _ hmem

theorem not_written_of_present (ds : List Str) (s : Store) (d : Str)
    (h : (get_plugin_by_directory s d).isSome) :
    d ∉ (reconcileWrites ds s).map (fun w => w.1.directory) := by
  induction ds generalizing s with
  | nil => simp [reconcileWrites]
  | cons d' ds ih =>
    cases hd : get_plugin_by_directory s d' with
    | some q =>
      simp only [reconcileWrites, hd]
      exact ih s h
    | none =>
      have hne : d ≠ d' := by
        intro hc
        rw [hc, hd] at h
        simp at h
      simp only [reconcileWrites, hd, List.map_cons, List.mem_cons]
      intro hcon
      rcases hcon with hdd | hmem
      · exact hne (by simpa [bundledRecord] using hdd)
      · have hpres : (get_plugin_by_directory (upsert_plugin s (bundledRecord d')) d).isSome := by
          rw [get_upsert_of_ne s (bundledRecord d') d (by simpa [bundledRecord] using hne)]
          exact h
        exact ih _ hpres hmem

theorem writes_dirs_nodup (ds : List Str) (s : Store) :
    ((reconcileWrites ds s).map (fun w => w.1.directory)).Nodup := by
  induction ds generalizing s with
  | nil => simp [reconcileWrites]
  | cons d' ds ih =>
    cases hd : get_plugin_by_directory s d' with
    | some q =>
      simp only [reconcileWrites, hd]
      exact ih s
    | none =>
      simp only [reconcileWrites, hd, List.map_cons]
      refine List.nodup_cons.mpr ⟨?_, ih _⟩
      have hpres : (get_plugin_by_directory (upsert_plugin s (bundledRecord d')) d').isSome := by
        have hg := get_upsert_self s (bundledRecord d')
        rw [show (bundledRecord d').directory = d' from rfl] at hg
        simp [hg]
      exact not_written_of_present ds _ d' hpres

theorem reconcileE_no_ok_of_failed_write (ok : Str → Bool) (d : Str) (hok : ok d = false) :
    ∀ (ds : List Str) (s : Store), d ∈ ds → get_plugin_by_directory s d = none →
      ∀ s', reconcileE ok ds s ≠ Except.ok s' := by
  intro ds
  induction ds with
  | nil =>
    intro s hmem
    cases hmem
  | cons d' ds ih =>
    intro s hmem hget s' hcon
    cases hd : get_plugin_by_directory s d' with
    | some q =>
      simp only [reconcileE, hd] at hcon
      have hdd : d ≠ d' := by
        intro hc
        rw [hc, hd] at hget
        exact Option.noConfusion hget
      have hmem' : d ∈ ds := by
        rcases List.mem_cons.mp hmem with rfl | hm
        · exact absurd rfl hdd
        · exact hm
      exact ih s hmem' hget s' hcon
    | none =>
      simp only [reconcileE, hd] at hcon
      by_cases hdd : d = d'
      · subst hdd
        rw [hok] at hcon
        simp at hcon
      · cases hod : ok d' with
        | false =>
          rw [hod] at hcon
          simp at hcon
        | true =>
          rw [hod] at hcon
          simp only [if_pos rfl] at hcon
          have hmem' : d ∈ ds := by
            rcases List.mem_cons.mp hmem with rfl | hm
            · exact absurd rfl hdd
            · exact hm
          have hget' :
              get_plugin_by_directory (upsert_plugin s (bundledRecord d')) d = none := by
            rw [get_upsert_of_ne s (bundledRecord d') d (by simpa [bundledRecord] using hdd)]
            exact hget
          exact ih _ hmem' hget' s' hcon

theorem runExitSignals_true (n : Nat) : runExitSignals n true = (true, []) := by
  induction n with
  | zero => rfl
  | succ n ih => simp [runExitSignals, handleExitRequested, ih]

theorem splitSlash_ne_nil (l : List Char) : splitSlash l ≠ [] := by
  match l with
  | [] => simp [splitSlash]
  | c :: cs =>
    by_cases h : c = '/'
    · simp [splitSlash, h]
    · simp only [splitSlash, if_neg h]
      cases hs : splitSlash cs with
      | nil => simp
      | cons seg rest => simp

theorem splitSlash_append_slash (l : List Char) :
    splitSlash (l ++ ['/']) = splitSlash l ++ [[]] := by
  induction l with
  | nil => simp [splitSlash]
  | cons c cs ih =>
    by_cases h : c = '/'
    · simp [splitSlash, h, ih]
    · simp only [List.cons_append, splitSlash, if_neg h]
      cases hs : splitSlash cs with
      | nil => exact absurd hs (splitSlash_ne_nil cs)
      | cons seg rest => simp only [List.append_eq]; rw [ih, hs]; simp

theorem bootstrap_branches (env : Env) :
    ((bootstrap env).1 = [] ∨
      (bootstrap env).1 = [Step.resolution, Step.construction] ∨
      (bootstrap env).1 = [Step.resolution, Step.construction, Step.enumeration] ∨
      (bootstrap env).1 =
        [Step.resolution, Step.construction, Step.enumeration, Step.reconciliation]) ∧
      (∃ e, (bootstrap env).2 = Except.error e) ∨
    ((bootstrap env).1 = fullOrder ∧ ∃ r, (bootstrap env).2 = Except.ok r) := by
  cases hv1 : env.resolve "vendored/plugins".data with
  | none =>
    refine Or.inl ⟨Or.inl ?_, "failed to resolve plugin directory resource".data, ?_⟩ <;>
      simp [bootstrap, hv1]
  | some v1 =>
  cases ha : env.appDataDir with
  | none =>
    refine Or.inl ⟨Or.inl ?_, "failed to get app data dir".data, ?_⟩ <;>
      simp [bootstrap, hv1, ha]
  | some a =>
  cases hv3 : env.resolve (nodeBinLogicalPath env.isWindows) with
  | none =>
    refine Or.inl ⟨Or.inl ?_, "failed to resolve yaaknode binary".data, ?_⟩ <;>
      simp [bootstrap, hv1, ha, hv3]
  | some v3 =>
  cases hv4 : env.resolve "vendored/plugin-runtime".data with
  | none =>
    refine Or.inl ⟨Or.inl ?_, "failed to resolve plugin runtime".data, ?_⟩ <;>
      simp [bootstrap, hv1, ha, hv3, hv4]
  | some v4 =>
  cases hbd : env.bundledDirs with
  | error e =>
    refine Or.inl ⟨Or.inr (Or.inl ?_), "Failed to list bundled plugins".data, ?_⟩ <;>
      simp [bootstrap, hv1, ha, hv3, hv4, hbd]
  | ok bd =>
  cases hrec : reconcileE env.upsertOk bd env.store with
  | error e =>
    refine Or.inl ⟨Or.inr (Or.inr (Or.inl ?_)), e, ?_⟩ <;>
      simp [bootstrap, hv1, ha, hv3, hv4, hbd, hrec]
  | ok s' =>
  cases hl : env.listOk with
  | false =>
    refine Or.inl ⟨Or.inr (Or.inr (Or.inr ?_)),
      "Failed to list plugins from database".data, ?_⟩ <;>
      simp [bootstrap, hv1, ha, hv3, hv4, hbd, hrec, hl]
  | true =>
    refine Or.inr ⟨?_,
      { manager :=
        { vendoredPluginDir := v1
        , installedPluginDir := a ++ "/installed-plugins".data
        , nodeBinPath := v3
        , pluginRuntimeMain := v4 ++ "/index.cjs".data
        , devMode := env.devMode }
      , plugins := s'
      , toasts := failureToasts (env.initErrors s') }, ?_⟩ <;>
      simp [bootstrap, hv1, ha, hv3, hv4, hbd, hrec, hl, fullOrder]

theorem bootstrap_ok_inputs (env : Env) (r : BootOk) (h : (bootstrap env).2 = Except.ok r) :
    (∃ v, env.resolve "vendored/plugins".data = some v) ∧
    (∃ a, env.appDataDir = some a) ∧
    (∃ v, env.resolve (nodeBinLogicalPath env.isWindows) = some v) ∧
    (∃ v, env.resolve "vendored/plugin-runtime".data = some v) ∧
    (∃ bd s', env.bundledDirs = Except.ok bd ∧
      reconcileE env.upsertOk bd env.store = Except.ok s') ∧
    env.listOk = true ∧
    env.resolve (nodeBinLogicalPath env.isWindows) = some r.manager.nodeBinPath := by
  obtain ⟨⟨rmv, rmi, rmn, rmp, rmd⟩, rpl, rto⟩ := r
  cases hv1 : env.resolve "vendored/plugins".data with
  | none => simp [bootstrap, hv1] at h
  | some v1 =>
  cases ha : env.appDataDir with
  | none => simp [bootstrap, hv1, ha] at h
  | some a =>
  cases hv3 : env.resolve (nodeBinLogicalPath env.isWindows) with
  | none => simp [bootstrap, hv1, ha, hv3] at h
  | some v3 =>
  cases hv4 : env.resolve "vendored/plugin-runtime".data with
  | none => simp [bootstrap, hv1, ha, hv3, hv4] at h
  | some v4 =>
  cases hbd : env.bundledDirs with
  | error e => simp [bootstrap, hv1, ha, hv3, hv4, hbd] at h
  | ok bd =>
  cases hrec : reconcileE env.upsertOk bd env.store with
  | error e => simp [bootstrap, hv1, ha, hv3, hv4, hbd, hrec] at h
  | ok s' =>
  cases hl : env.listOk with
  | false => simp [bootstrap, hv1, ha, hv3, hv4, hbd, hrec, hl] at h
  | true =>
  simp [bootstrap, hv1, ha, hv3, hv4, hbd, hrec, hl] at h
  refine ⟨⟨v1, rfl⟩, ⟨a, rfl⟩, ⟨v3, rfl⟩, ⟨v4, rfl⟩, ⟨bd, s', rfl, hrec⟩, rfl, ?_⟩
  obtain ⟨⟨h1, h2, h3, h4, h5⟩, h6, h7⟩ := h
  rw [h3]

theorem aborted_of_error (env : Env) (e : Str) (he : (bootstrap env).2 = Except.error e) :
    aborted env := by
  rcases bootstrap_branches env with ⟨htr, e', he'⟩ | ⟨htr, r, hr⟩
  · refine ⟨⟨e', he'⟩, ?_⟩
    intro hp
    rcases htr with h | h | h | h <;> rw [h] at hp <;> exact absurd hp (by decide)
  · rw [hr] at he
    exact Except.noConfusion he

theorem aborted_of_no_ok (env : Env) (hno : ∀ r, (bootstrap env).2 ≠ Except.ok r) :
    aborted env := by
  rcases bootstrap_branches env with ⟨htr, e', he'⟩ | ⟨htr, r, hr⟩
  · exact aborted_of_error env e' he'
  · exact absurd hr (hno r)

/-- Claim C1: the drain-and-exit sequence runs at most once: for any number
n of exit-request signals (at least one) delivered from the initial
not-exiting state, the combined actions of the whole signal sequence are
exactly one suppress, one terminate and one forced exit, each counted once,
and a signal arriving once the EXITING flag is set performs no action at
all, which covers signals re-raised by the forced exit itself. -/
theorem exit_drain_single_fire (n : Nat) (h : 1 ≤ n) :
    (runExitSignals n false).2 =
      [ExitAction.preventExit, ExitAction.terminate, ExitAction.exitApp 0] ∧
    (runExitSignals n false).2.count ExitAction.terminate = 1 ∧
    (runExitSignals n false).2.count (ExitAction.exitApp 0) = 1 ∧
    ∀ m, (runExitSignals m true).2 = [] := by
  obtain ⟨k, rfl⟩ : ∃ k, n = k + 1 := ⟨n - 1, (Nat.succ_pred_eq_of_pos h).symm⟩
  have hrun : (runExitSignals (k + 1) false).2 =
      [ExitAction.preventExit, ExitAction.terminate, ExitAction.exitApp 0] := by
    simp [runExitSignals, handleExitRequested, runExitSignals_true k]
  exact ⟨hrun, by rw [hrun]; decide, by rw [hrun]; decide,
    fun m => by rw [runExitSignals_true m]⟩

theorem exit_drain_single_fire_witness :
    (runExitSignals 2 false).2 =
      [ExitAction.preventExit, ExitAction.terminate, ExitAction.exitApp 0] :=
  (exit_drain_single_fire 2 (by decide)).1

/-- Claim C2: reconciliation is idempotent: running the loop twice yields
the same store as running it once, a second run performs no writes, and
when every bundled directory already has a record the loop performs no
upsert writes at all. -/
theorem reconcile_idempotent (ds : List Str) (s : Store) :
    reconcile ds (reconcile ds s) = reconcile ds s ∧
    ((∀ d ∈ ds, (get_plugin_by_directory s d).isSome) → reconcileWrites ds s = []) ∧
    reconcileWrites ds (reconcile ds s) = [] :=
  ⟨reconcile_noop ds _ (fun d hd => get_reconcile_isSome ds s d hd),
   reconcileWrites_nil_of_present ds s,
   reconcileWrites_nil_of_present ds _ (fun d hd => get_reconcile_isSome ds s d hd)⟩

theorem reconcile_idempotent_witness :
    reconcile ["core/a".data] (reconcile ["core/a".data] storeEx) =
      reconcile ["core/a".data] storeEx ∧
    reconcileWrites ["core/a".data] storeEx = [] := by
  have h := reconcile_idempotent ["core/a".data] storeEx
  exact ⟨h.1, h.2.1 (by decide)⟩

/-- Claim C3: bootstrap steps execute strictly in the order resolution,
construction, enumeration, reconciliation, load, initialization, publish:
the completed-step trace is always a prefix of that order, the publish step
occurs only in the complete trace (so only after initialization), and a
successful outcome has the complete trace. -/
theorem bootstrap_step_order (env : Env) :
    (∃ k, (bootstrap env).1 = fullOrder.take k) ∧
    (Step.publish ∈ (bootstrap env).1 → (bootstrap env).1 = fullOrder) ∧
    ∀ r, (bootstrap env).2 = Except.ok r → (bootstrap env).1 = fullOrder := by
  rcases bootstrap_branches env with ⟨htr, e, he⟩ | ⟨htr, r, hr⟩
  · have hk : ∃ k, (bootstrap env).1 = fullOrder.take k := by
      rcases htr with h | h | h | h
      · exact ⟨0, by rw [h]; decide⟩
      · exact ⟨2, by rw [h]; decide⟩
      · exact ⟨3, by rw [h]; decide⟩
      · exact ⟨4, by rw [h]; decide⟩
    refine ⟨hk, ?_, ?_⟩
    · intro hp
      exfalso
      rcases htr with h | h | h | h <;> rw [h] at hp <;> exact absurd hp (by decide)
    · intro r' hok
      rw [he] at hok
      exact Except.noConfusion hok
  · exact ⟨⟨7, by rw [htr]; decide⟩, fun _ => htr, fun r' _ => htr⟩

theorem bootstrap_step_order_witness :
    (bootstrap envOkEx).1 = fullOrder :=
  (bootstrap_step_order envOkEx).2.2 bootOkEx (by rfl)

/-- Claim C4: for a failure sequence of length k, exactly k toasts are
built, the i-th toast for the i-th failure, and each toast message contains
the display name (last path segment of the failing directory) and the
error text, with the Danger color, the AlertTriangle icon and a fixed
10000 ms timeout. -/
theorem failure_toast_per_error (errors : List (Str × Str)) :
    (failureToasts errors).length = errors.length ∧
    (∀ i : Nat, (failureToasts errors)[i]? = (errors[i]?).map failureToast) ∧
    ∀ e ∈ errors,
      containsSeg (pluginDisplayName e.1) (failureToast e).message ∧
      containsSeg e.2 (failureToast e).message ∧
      (failureToast e).color = some Color.Danger ∧
      (failureToast e).icon = some Icon.AlertTriangle ∧
      (failureToast e).timeout = some 10000 := by
  refine ⟨by simp [failureToasts], fun i => by simp [failureToasts], fun e he => ?_⟩
  refine ⟨⟨"Failed to start plugin ".data ++ [quoteChar],
      [quoteChar] ++ ": ".data ++ e.2, by simp [failureToast]⟩,
    ⟨"Failed to start plugin ".data ++ [quoteChar] ++ pluginDisplayName e.1 ++
      [quoteChar] ++ ": ".data, [], by simp [failureToast]⟩, rfl, rfl, rfl⟩

theorem failure_toast_per_error_witness :
    containsSeg "b".data
      (failureToast ("core/b".data, "missing dependency".data)).message ∧
    containsSeg "missing dependency".data
      (failureToast ("core/b".data, "missing dependency".data)).message ∧
    (failureToast ("core/b".data, "missing dependency".data)).color = some Color.Danger ∧
    (failureToast ("core/b".data, "missing dependency".data)).timeout = some 10000 := by
  have h := (failure_toast_per_error [("core/b".data, "missing dependency".data)]).2.2
    ("core/b".data, "missing dependency".data) (by simp)
  have hb : pluginDisplayName "core/b".data = "b".data := by decide
  have h1 : containsSeg (pluginDisplayName "core/b".data)
      (failureToast ("core/b".data, "missing dependency".data)).message := h.1
  rw [hb] at h1
  exact ⟨h1, h.2.1, h.2.2.1, h.2.2.2.2⟩

/-- Claim C5: on the first exit-request signal the handler first suppresses
the default immediate exit, then awaits terminate, and only afterward
forces the process to exit with status 0, in exactly that order. -/
theorem exit_first_signal_order :
    handleExitRequested false =
      (true, [ExitAction.preventExit, ExitAction.terminate, ExitAction.exitApp 0]) := rfl

/-- Claim C6: reconciliation never modifies or overwrites an existing store
record: any record found under a key before reconciliation is found
unchanged under that key afterwards; and every record reconciliation
writes has enabled = true, url = none and the Background update source. -/
theorem reconcile_frame_and_inserts (ds : List Str) (s : Store) :
    (∀ d p, get_plugin_by_directory s d = some p →
      get_plugin_by_directory (reconcile ds s) d = some p) ∧
    ∀ w ∈ reconcileWrites ds s,
      w.1.enabled = true ∧ w.1.url = none ∧ w.2 = UpdateSource.Background := by
  refine ⟨fun d p h => get_reconcile_of_get ds s d p h, fun w hw => ?_⟩
  obtain ⟨d, rfl⟩ := mem_reconcileWrites ds s w hw
  exact ⟨rfl, rfl, rfl⟩

theorem reconcile_frame_and_inserts_witness :
    get_plugin_by_directory (reconcile ["core/b".data] storeEx) "core/a".data =
      some (bundledRecord "core/a".data) ∧
    (bundledRecord "core/b".data).enabled = true ∧
    (bundledRecord "core/b".data).url = none ∧
    UpdateSource.Background = UpdateSource.Background := by
  have h := reconcile_frame_and_inserts ["core/b".data] storeEx
  refine ⟨h.1 "core/a".data (bundledRecord "core/a".data) (by decide), ?_⟩
  exact h.2 (bundledRecord "core/b".data, UpdateSource.Background) (by decide)

/-- Claim C7: bootstrap aborts startup, never reaching the publish step,
whenever resolving the vendored plugin directory, the app-data directory,
the runtime binary or the runtime entry module fails, whenever enumerating
the bundled directories fails, whenever an upsert write during
reconciliation fails, and whenever the full plugin-list read fails. -/
theorem bootstrap_fatal_aborts (env : Env) :
    (env.resolve "vendored/plugins".data = none → aborted env) ∧
    (env.appDataDir = none → aborted env) ∧
    (env.resolve (nodeBinLogicalPath env.isWindows) = none → aborted env) ∧
    (env.resolve "vendored/plugin-runtime".data = none → aborted env) ∧
    (∀ e, env.bundledDirs = Except.error e → aborted env) ∧
    (∀ bd e, env.bundledDirs = Except.ok bd →
      reconcileE env.upsertOk bd env.store = Except.error e → aborted env) ∧
    (∀ bd d, env.bundledDirs = Except.ok bd → d ∈ bd →
      get_plugin_by_directory env.store d = none → env.upsertOk d = false →
      aborted env) ∧
    (env.listOk = false → aborted env) := by
  refine ⟨?_, ?_, ?_, ?_, ?_, ?_, ?_, ?_⟩
  · intro hyp
    refine aborted_of_no_ok env (fun r hok => ?_)
    obtain ⟨v, hv⟩ := (bootstrap_ok_inputs env r hok).1
    rw [hyp] at hv
    exact Option.noConfusion hv
  · intro hyp
    refine aborted_of_no_ok env (fun r hok => ?_)
    obtain ⟨a, ha⟩ := (bootstrap_ok_inputs env r hok).2.1
    rw [hyp] at ha
    exact Option.noConfusion ha
  · intro hyp
    refine aborted_of_no_ok env (fun r hok => ?_)
    obtain ⟨v, hv⟩ := (bootstrap_ok_inputs env r hok).2.2.1
    rw [hyp] at hv
    exact Option.noConfusion hv
  · intro hyp
    refine aborted_of_no_ok env (fun r hok => ?_)
    obtain ⟨v, hv⟩ := (bootstrap_ok_inputs env r hok).2.2.2.1
    rw [hyp] at hv
    exact Option.noConfusion hv
  · intro e hyp
    refine aborted_of_no_ok env (fun r hok => ?_)
    obtain ⟨bd, s', hbd, hrec⟩ := (bootstrap_ok_inputs env r hok).2.2.2.2.1
    rw [hyp] at hbd
    exact Except.noConfusion hbd
  · intro bd e hbd hyp
    refine aborted_of_no_ok env (fun r hok => ?_)
    obtain ⟨bd', s', hbd', hrec'⟩ := (bootstrap_ok_inputs env r hok).2.2.2.2.1
    rw [hbd] at hbd'
    injection hbd' with hbb
    subst hbb
    rw [hyp] at hrec'
    exact Except.noConfusion hrec'
  · intro bd d hbd hmem hget hup
    refine aborted_of_no_ok env (fun r hok => ?_)
    obtain ⟨bd', s', hbd', hrec'⟩ := (bootstrap_ok_inputs env r hok).2.2.2.2.1
    rw [hbd] at hbd'
    injection hbd' with hbb
    subst hbb
    exact reconcileE_no_ok_of_failed_write env.upsertOk d hup bd env.store hmem hget s' hrec'
  · intro hyp
    refine aborted_of_no_ok env (fun r hok => ?_)
    have hl := (bootstrap_ok_inputs env r hok).2.2.2.2.2.1
    rw [hyp] at hl
    exact Bool.noConfusion hl

theorem bootstrap_fatal_aborts_witness : aborted envFailEx :=
  (bootstrap_fatal_aborts envFailEx).1 rfl

/-- Claim C8: the runtime binary name is selected by platform: the suffixed
name yaaknode.exe on Windows and the base name yaaknode elsewhere, resolved
under the vendored node resource directory; a successful bootstrap resolves
exactly that logical path into the published manager. -/
theorem node_bin_platform_selection :
    nodeBinName true = "yaaknode.exe".data ∧
    nodeBinName false = "yaaknode".data ∧
    nodeBinLogicalPath true = "vendored/node/yaaknode.exe".data ∧
    nodeBinLogicalPath false = "vendored/node/yaaknode".data ∧
    ∀ env r, (bootstrap env).2 = Except.ok r →
      env.resolve (nodeBinLogicalPath env.isWindows) = some r.manager.nodeBinPath := by
  refine ⟨by decide, by decide, by decide, by decide, ?_⟩
  intro env r h
  exact (bootstrap_ok_inputs env r h).2.2.2.2.2.2

theorem node_bin_platform_selection_witness :
    envOkEx.resolve (nodeBinLogicalPath envOkEx.isWindows) =
      some bootOkEx.manager.nodeBinPath :=
  node_bin_platform_selection.2.2.2.2 envOkEx bootOkEx (by rfl)

/-- Claim C9: upsert makes the written record visible to a subsequent
lookup under its directory key; under that store model, reconciliation
writes at most one record per distinct directory even when the bundled
sequence contains duplicates (the written directory keys are pairwise
distinct), and every written record has all fields other than directory,
enabled and url at their default values. -/
theorem reconcile_insert_once_defaults (ds : List Str) (s : Store) :
    (∀ t p, get_plugin_by_directory (upsert_plugin t p) p.directory = some p) ∧
    ((reconcileWrites ds s).map (fun w => w.1.directory)).Nodup ∧
    ∀ w ∈ reconcileWrites ds s, w.1.meta = defaultMeta := by
  refine ⟨fun t p => get_upsert_self t p, writes_dirs_nodup ds s, fun w hw => ?_⟩
  obtain ⟨d, rfl⟩ := mem_reconcileWrites ds s w hw
  rfl

theorem reconcile_insert_once_defaults_witness :
    get_plugin_by_directory (upsert_plugin storeEx (bundledRecord "core/b".data))
      "core/b".data = some (bundledRecord "core/b".data) ∧
    ((reconcileWrites ["core/a".data, "core/a".data] []).map
      (fun w => w.1.directory)).Nodup ∧
    (bundledRecord "core/a".data).meta = defaultMeta := by
  have h := reconcile_insert_once_defaults ["core/a".data, "core/a".data] []
  exact ⟨h.1 storeEx (bundledRecord "core/b".data), h.2.1,
    h.2.2 (bundledRecord "core/a".data, UpdateSource.Background) (by decide)⟩

/-- Claim C10: splitting a directory on slash always yields at least one
segment, so the fallback to the whole directory in the display-name
derivation is unreachable, and a directory ending in a slash has the empty
string as its derived display name. -/
theorem display_name_split_total (dir : Str) :
    splitSlash dir ≠ [] ∧
    (splitSlash dir).getLast? ≠ none ∧
    pluginDisplayName (dir ++ ['/']) = [] := by
  refine ⟨splitSlash_ne_nil dir, ?_, ?_⟩
  · intro hnone
    exact splitSlash_ne_nil dir (List.getLast?_eq_none_iff.mp hnone)
  · simp [pluginDisplayName, splitSlash_append_slash, List.getLast?_concat]

theorem display_name_split_total_witness :
    splitSlash "core/b".data ≠ [] ∧
    (splitSlash "core/b".data).getLast? ≠ none ∧
    pluginDisplayName ("core/b".data ++ ['/']) = [] :=
  display_name_split_total "core/b".data

end Yapi
